import Mathlib

/-!
Verification of the commit scheduling and synchronization engine of the
github-contributions generator repository.  The definitions below are a
shallow embedding of the JavaScript sources:

* `src/unnamed/part_002` and `src/index.js` — `generateDate`, the pattern
  table and `drawPattern`;
* `src/src/git-service.js` — `push` (retry loop with failure
  classification) and `pull` (recoverable-failure classification);
* `src/src/commit-service.js` — `createCommit` (dry-run behaviour) and
  `backfillContributions`;
* `src/src/config.js` (scheduler section) — `executeTask` / `runNow` and
  the run statistics.

Randomness, the external git binary and the file system are modelled as
explicit oracle parameters; effects are modelled as event traces.
-/

namespace GitCommit

/-! ### Calendar model (moment.js style civil-date arithmetic)

`moment()` carries a civil calendar date plus a time-of-day component.
`subtract(n, "y")` decrements the year number, clamping the day-of-month
(Feb 29 → Feb 28); `add(n, "d")` / `add(n, "w")` advance the calendar
date by days / by 7·n days, leaving the time-of-day untouched. -/

structure CivilDate where
  year : Int
  month : Nat
  day : Nat
deriving DecidableEq, Repr

def isLeapYear (y : Int) : Bool :=
  y % 4 == 0 && (y % 100 != 0 || y % 400 == 0)

def daysInMonth (y : Int) (m : Nat) : Nat :=
  if m == 2 then (if isLeapYear y then 29 else 28)
  else if m == 4 || m == 6 || m == 9 || m == 11 then 30
  else 31

def nextDay (d : CivilDate) : CivilDate :=
  if d.day < daysInMonth d.year d.month then ⟨d.year, d.month, d.day + 1⟩
  else if d.month < 12 then ⟨d.year, d.month + 1, 1⟩
  else ⟨d.year + 1, 1, 1⟩

def addDays (d : CivilDate) : Nat → CivilDate
  | 0 => d
  | n + 1 => nextDay (addDays d n)

/-- moment's `subtract(n, "years")`: decrement the year number and clamp
the day-of-month to the target month's length. -/
def subtractYears (d : CivilDate) (n : Nat) : CivilDate :=
  ⟨d.year - n, d.month, min d.day (daysInMonth (d.year - n) d.month)⟩

/-- A moment.js instant: civil date plus time-of-day (milliseconds). -/
structure Moment where
  date : CivilDate
  timeOfDay : Nat
deriving DecidableEq, Repr

/-- `CONFIG.yearsBack` in `src/index.js` and `src/unnamed/part_002`. -/
def yearsBack : Nat := 1

/-- `generateDate(weeksBack, dayOfWeek)` from `src/index.js` lines 23-30 and
`src/unnamed/part_002` lines 79-86:
`moment().subtract(yearsBack, "y").add(1, "d").add(weeksBack, "w").add(dayOfWeek, "d")`.
The current instant `now` is an explicit parameter of the embedding. -/
def generateDate (now : Moment) (weeksBack dayOfWeek : Nat) : Moment :=
  { date :=
      addDays (addDays (addDays (subtractYears now.date yearsBack) 1) (7 * weeksBack)) dayOfWeek
    timeOfDay := now.timeOfDay }

theorem addDays_addDays (d : CivilDate) (a b : Nat) :
    addDays (addDays d a) b = addDays d (a + b) := by
  induction b with
  | zero => rfl
  | succ n ih => simp [addDays, ih, Nat.add_succ]

/-- Claim C5: `generateDate` is a pure, deterministic function of its inputs,
the fixed `yearsBack` constant and the date-only component of the current
instant: two calls within the same calendar day (identical `now.date`,
arbitrary times of day) yield identical result dates, and the result date is
today minus `yearsBack` years, plus 1 day, plus `weeksBack` weeks, plus
`dayOfWeek` days. -/
theorem generateDate_pure_date_formula (today : CivilDate) (t1 t2 : Nat)
    (w d : Nat) :
    (generateDate ⟨today, t1⟩ w d).date = (generateDate ⟨today, t2⟩ w d).date ∧
    (generateDate ⟨today, t1⟩ w d).date =
      addDays (subtractYears today yearsBack) (1 + (7 * w + d)) := by
  constructor
  · rfl
  · simp [generateDate, addDays_addDays, Nat.add_assoc]

/-- Witness for C5 at a concrete date, with two different times of day. -/
theorem generateDate_pure_date_formula_witness :
    (generateDate ⟨⟨2026, 3, 1⟩, 100⟩ 2 3).date =
      (generateDate ⟨⟨2026, 3, 1⟩, 999⟩ 2 3).date ∧
    (generateDate ⟨⟨2026, 3, 1⟩, 100⟩ 2 3).date =
      addDays (subtractYears ⟨2026, 3, 1⟩ yearsBack) (1 + (7 * 2 + 3)) :=
  generateDate_pure_date_formula ⟨2026, 3, 1⟩ 100 999 2 3

/-! ### Version-control gateway (`src/src/git-service.js`)

The underlying `simple-git` calls are external; each attempted call is
modelled by an oracle giving its outcome (`.ok` result or `.error` with the
error message string).  Error classification in the source is by substring
matching on the message, embedded here by an executable substring test. -/

def listStartsWith : List Char → List Char → Bool
  | [], _ => true
  | _ :: _, [] => false
  | a :: as, b :: bs => a == b && listStartsWith as bs

def listContainsSub : List Char → List Char → Bool
  | s, pat =>
    match s with
    | [] => pat.isEmpty
    | _ :: rest => listStartsWith pat s || listContainsSub rest pat

/-- `error.message.includes(pat)` of JavaScript. -/
def containsSub (s pat : String) : Bool := listContainsSub s.data pat.data

/-- The remote-absent classification of `GitService.push`
(`src/src/git-service.js` lines 131-135). -/
def isRemoteAbsentPush (msg : String) : Bool :=
  containsSub msg "does not appear to be a git repository" ||
  containsSub msg "repository not found" ||
  containsSub msg "Could not read from remote"

/-- The recoverable-failure classification of `GitService.pull`
(`src/src/git-service.js` lines 179-186). -/
def isRecoverablePull (msg : String) : Bool :=
  containsSub msg "no tracking information" ||
  containsSub msg "couldn't find remote ref" ||
  containsSub msg "does not appear to be a git repository" ||
  containsSub msg "repository not found" ||
  containsSub msg "unstaged changes" ||
  containsSub msg "You have unstaged changes"

/-- Result of a `push` call: the raw result of a successful remote push, the
`{pushed:false, local:true}` fallback for a remote-absent failure, the
`{pushed:true}` dry-run result, or `undef` for the JavaScript `undefined`
fall-through when the retry budget is smaller than one. -/
inductive PushOutcome (α : Type) where
  | remote (r : α)
  | localOnly
  | dryRunPushed
  | undef
deriving DecidableEq, Repr

/-- Observable run of one `push` call: the returned/surfaced result, the
number of underlying `git push` invocations, and the sleeps (in ms)
performed between attempts. -/
structure PushRun (α : Type) where
  result : Except String (PushOutcome α)
  attempts : Nat
  sleeps : List Nat
deriving Repr

/-- The retry loop body of `GitService.push` (`src/src/git-service.js`
lines 111-153).  `rem` is the number of loop iterations left
(`maxRetries - attempt + 1`), `attempt` the 1-based attempt counter, `out`
the oracle giving each underlying `git push` outcome. -/
def pushAux (dryRun : Bool) (rd mr : Nat) (out : Nat → Except String α) :
    Nat → Nat → PushRun α
  | 0, _ => ⟨.ok .undef, 0, []⟩
  | rem + 1, attempt =>
    if dryRun then ⟨.ok .dryRunPushed, 0, []⟩
    else
      match out attempt with
      | .ok r => ⟨.ok (.remote r), 1, []⟩
      | .error msg =>
        if isRemoteAbsentPush msg then ⟨.ok .localOnly, 1, []⟩
        else if attempt == mr then ⟨.error msg, 1, []⟩
        else
          let rest := pushAux dryRun rd mr out rem (attempt + 1)
          ⟨rest.result, rest.attempts + 1, rd * attempt :: rest.sleeps⟩

/-- `GitService.push` with retry delay `rd` (`CONFIG.app.retryDelay`) and
attempt budget `mr` (`CONFIG.app.retryAttempts`). -/
def push (dryRun : Bool) (rd mr : Nat) (out : Nat → Except String α) :
    PushRun α :=
  pushAux dryRun rd mr out mr 1

theorem range_map_mul_shift (rd a k : Nat) :
    (List.range (k + 1)).map (fun i => rd * (a + i)) =
      rd * a :: (List.range k).map (fun i => rd * ((a + 1) + i)) := by
  rw [List.range_succ_eq_map, List.map_cons, List.map_map]
  refine congrArg₂ _ (by rw [Nat.add_zero]) ?_
  exact List.map_congr_left fun i _ => by
    simp only [Function.comp_apply, Nat.succ_eq_add_one]
    ring

theorem pushAux_step (rd mr : Nat) (out : Nat → Except String α)
    (n a : Nat) (m : String) (hout : out a = .error m)
    (hmra : isRemoteAbsentPush m = false) (hane : a ≠ mr) :
    pushAux false rd mr out (n + 1) a =
      ⟨(pushAux false rd mr out n (a + 1)).result,
        (pushAux false rd mr out n (a + 1)).attempts + 1,
        rd * a :: (pushAux false rd mr out n (a + 1)).sleeps⟩ := by
  have hane' : (a == mr) = false := by simp [hane]
  rw [pushAux]
  simp only [Bool.false_eq_true, if_false, hout, hmra, hane', ite_false]

theorem pushAux_remoteAbsent (rd mr : Nat) (out : Nat → Except String α)
    (msgj : String) :
    ∀ rem a j, a + rem = mr + 1 → a ≤ j → j ≤ mr →
    (∀ i, a ≤ i → i < j →
      ∃ m, out i = .error m ∧ isRemoteAbsentPush m = false) →
    out j = .error msgj → isRemoteAbsentPush msgj = true →
    pushAux false rd mr out rem a =
      ⟨.ok .localOnly, j - a + 1,
        (List.range (j - a)).map (fun i => rd * (a + i))⟩ := by
  intro rem
  induction rem with
  | zero => intro a j hsum haj hj _ _ _; omega
  | succ n ih =>
    intro a j hsum haj hj hpre houtj hra
    rcases Nat.lt_or_ge a j with haltj | hage
    · obtain ⟨m, hout, hmra⟩ := hpre a le_rfl haltj
      have hrec := ih (a + 1) j (by omega) (by omega) hj
        (fun i hi1 hi2 => hpre i (by omega) hi2) houtj hra
      rw [pushAux_step rd mr out n a m hout hmra (by omega), hrec]
      have hja : j - a = (j - (a + 1)) + 1 := by omega
      rw [hja, range_map_mul_shift]
    · have haej : a = j := by omega
      subst haej
      simp [pushAux, houtj, hra]

theorem pushAux_exhaust (rd mr : Nat) (out : Nat → Except String α) :
    ∀ rem a, a + rem = mr + 1 → 1 ≤ a → a ≤ mr →
    (∀ i, a ≤ i → i ≤ mr →
      ∃ m, out i = .error m ∧ isRemoteAbsentPush m = false) →
    ∃ msg, out mr = .error msg ∧
      pushAux false rd mr out rem a =
        ⟨.error msg, mr - a + 1,
          (List.range (mr - a)).map (fun i => rd * (a + i))⟩ := by
  intro rem
  induction rem with
  | zero => intro a hsum _ hamr _; omega
  | succ n ih =>
    intro a hsum ha1 hamr hall
    rcases Nat.lt_or_ge a mr with haltm | hagem
    · obtain ⟨m, hout, hmra⟩ := hall a le_rfl (by omega)
      obtain ⟨msg, houtm, hrec⟩ := ih (a + 1) (by omega) (by omega) (by omega)
        (fun i hi1 hi2 => hall i (by omega) hi2)
      refine ⟨msg, houtm, ?_⟩
      rw [pushAux_step rd mr out n a m hout hmra (by omega), hrec]
      have hma : mr - a = (mr - (a + 1)) + 1 := by omega
      rw [hma, range_map_mul_shift]
    · have haem : a = mr := by omega
      subst haem
      obtain ⟨m, hout, hmra⟩ := hall a le_rfl le_rfl
      exact ⟨m, hout, by simp [pushAux, hout, hmra]⟩

/-- Claim C2: a push failure in the remote-absent class returns
`{pushed:false, local:true}` without surfacing an error and without
consuming further attempts (exactly `j` underlying push calls when the
remote-absent failure happens on attempt `j`); non-remote-absent failures
are retried with a sleep of `retryDelay × attemptNumber` between attempts,
and when every one of the `maxRetries` attempts fails non-remote-absent the
final error is surfaced after exactly `maxRetries` attempts.  Stated for a
real (non-dry-run) push. -/
theorem push_retry_policy (rd mr : Nat) (out : Nat → Except String α)
    (hmr : 1 ≤ mr) :
    (∀ j msgj, 1 ≤ j → j ≤ mr →
      (∀ i, 1 ≤ i → i < j →
        ∃ m, out i = .error m ∧ isRemoteAbsentPush m = false) →
      out j = .error msgj → isRemoteAbsentPush msgj = true →
      push false rd mr out =
        ⟨.ok .localOnly, j,
          (List.range (j - 1)).map (fun i => rd * (i + 1))⟩) ∧
    ((∀ i, 1 ≤ i → i ≤ mr →
        ∃ m, out i = .error m ∧ isRemoteAbsentPush m = false) →
      ∃ msg, out mr = .error msg ∧
        push false rd mr out =
          ⟨.error msg, mr,
            (List.range (mr - 1)).map (fun i => rd * (i + 1))⟩) := by
  constructor
  · intro j msgj hj1 hjm hpre houtj hra
    have h := pushAux_remoteAbsent rd mr out msgj mr 1 j (by omega) hj1 hjm
      hpre houtj hra
    unfold push
    rw [h]
    refine congrArg₂ _ (by omega) ?_
    exact List.map_congr_left fun i _ => by rw [Nat.add_comm]
  · intro hall
    obtain ⟨msg, houtm, h⟩ := pushAux_exhaust rd mr out mr 1 (by omega)
      le_rfl hmr hall
    refine ⟨msg, houtm, ?_⟩
    unfold push
    rw [h]
    refine congrArg₂ _ (by omega) ?_
    exact List.map_congr_left fun i _ => by rw [Nat.add_comm]

/-- Witness for C2: with the default budget of 3 attempts and delay 1000ms,
a push whose underlying call always fails with a non-remote-absent message
surfaces that error after exactly 3 attempts, sleeping 1000 then 2000 ms. -/
theorem push_retry_policy_witness :
    ∃ msg,
      (fun _ : Nat => (.error "connection timed out" : Except String Unit)) 3
        = .error msg ∧
      push false 1000 3
          (fun _ => (.error "connection timed out" : Except String Unit)) =
        ⟨.error msg, 3, (List.range 2).map (fun i => 1000 * (i + 1))⟩ :=
  (push_retry_policy 1000 3 _ (by decide)).2
    (fun _ _ _ => ⟨"connection timed out", rfl, rfl⟩)

/-- `GitService.pull` (`src/src/git-service.js` lines 159-193): `underlying`
is the outcome of the `git pull --rebase` call; `none` models the empty
result `{}`. -/
def pull (dryRun : Bool) (underlying : Except String α) :
    Except String (Option α) :=
  if dryRun then .ok none
  else
    match underlying with
    | .ok r => .ok (some r)
    | .error msg => if isRecoverablePull msg then .ok none else .error msg

/-- Claim C9: a pull whose underlying failure message is in one of the
recoverable classes (no tracking information, remote ref not found, not a
git repository, repository not found, or unstaged local changes) returns the
empty result without surfacing an error; any other failure is surfaced to
the caller; and the recoverable classification is exactly the disjunction of
those five message classes. -/
theorem pull_classification (msg : String) :
    (isRecoverablePull msg = true →
      pull false (.error msg : Except String Unit) = .ok none) ∧
    (isRecoverablePull msg = false →
      pull false (.error msg : Except String Unit) = .error msg) ∧
    isRecoverablePull msg =
      (containsSub msg "no tracking information" ||
       containsSub msg "couldn't find remote ref" ||
       containsSub msg "does not appear to be a git repository" ||
       containsSub msg "repository not found" ||
       containsSub msg "unstaged changes" ||
       containsSub msg "You have unstaged changes") := by
  refine ⟨fun h => ?_, fun h => ?_, rfl⟩ <;> simp [pull, h]

/-- Witness for C9 on concrete messages of both classes. -/
theorem pull_classification_witness :
    pull false (.error "fatal: couldn't find remote ref main" :
        Except String Unit) = .ok none ∧
    pull false (.error "fatal: Authentication failed" :
        Except String Unit) = .error "fatal: Authentication failed" :=
  ⟨(pull_classification "fatal: couldn't find remote ref main").1 (by decide),
   (pull_classification "fatal: Authentication failed").2.1 (by decide)⟩

/-! ### Dry-run behaviour of the commit pipeline
(`src/src/commit-service.js` `createCommit`, `src/src/git-service.js`
`commit` / `push` / `pull`)

External effects are modelled as an event trace.  In the source, only
`GitService.commit`, `push` and `pull` check `CONFIG.app.dryRun`;
`CommitService.createCommit` writes the marker file and stages it
unconditionally. -/

inductive GitEv where
  | writeMarkerFile
  | gitAdd
  | commitObject
  | netPush
  | netPull
deriving DecidableEq, Repr

/-- The result `{commit, summary:{changes}}` of `GitService.commit`. -/
structure CommitRes where
  commit : String
  changes : Nat
deriving DecidableEq, Repr

/-- `GitService.commit` (`src/src/git-service.js` lines 77-100): in dry-run
mode it returns the synthetic result and performs no commit; `real` is the
result of the underlying `git commit` otherwise. -/
def gitCommit (dryRun : Bool) (real : CommitRes) : CommitRes × List GitEv :=
  if dryRun then (⟨"dry-run", 0⟩, []) else (real, [.commitObject])

/-- `CommitService.createCommit` (`src/src/commit-service.js` lines 51-84):
writes the marker data file, stages it, then calls `GitService.commit`. -/
def createCommit (dryRun : Bool) (real : CommitRes) :
    CommitRes × List GitEv :=
  ((gitCommit dryRun real).1,
    [.writeMarkerFile, .gitAdd] ++ (gitCommit dryRun real).2)

/-- Network events of `GitService.pull`. -/
def pullEvents (dryRun : Bool) : List GitEv :=
  if dryRun then [] else [.netPull]

/-- Network events of `GitService.push` (first attempt succeeding). -/
def pushEvents (dryRun : Bool) : List GitEv :=
  if dryRun then [] else [.netPush]

/-- Event trace of one pull → createCommit → push pipeline pass. -/
def pipelineTrace (dryRun : Bool) (real : CommitRes) : List GitEv :=
  pullEvents dryRun ++ (createCommit dryRun real).2 ++ pushEvents dryRun

/-- Counterexample to claim C7 as stated: in dry-run mode the marker file IS
written (and the staging call still happens) — `createCommit` does not guard
the data-file write or `git add` behind the dry-run flag. -/
theorem dryRun_writes_marker_counterexample :
    GitEv.writeMarkerFile ∈ (createCommit true ⟨"abc1234", 1⟩).2 ∧
    GitEv.gitAdd ∈ (createCommit true ⟨"abc1234", 1⟩).2 := by
  decide

/-- Claim C7 (amended): in dry-run mode the pipeline's event sequence
matches non-dry-run mode except that no commit object is created and no
push/pull network call occurs, and the commit step returns the synthetic
zero-change result `{commit:"dry-run", changes:0}`; the marker file is still
written and the marker still staged in dry-run mode. -/
theorem dryRun_frame (real : CommitRes) :
    pipelineTrace true real =
      (pipelineTrace false real).filter
        (fun e => !(e == GitEv.commitObject || e == GitEv.netPush ||
                    e == GitEv.netPull)) ∧
    (createCommit true real).1 = ⟨"dry-run", 0⟩ ∧
    GitEv.commitObject ∉ pipelineTrace true real ∧
    GitEv.netPush ∉ pipelineTrace true real ∧
    GitEv.netPull ∉ pipelineTrace true real ∧
    GitEv.writeMarkerFile ∈ pipelineTrace true real ∧
    GitEv.gitAdd ∈ pipelineTrace true real := by
  refine ⟨rfl, rfl, ?_, ?_, ?_, ?_, ?_⟩ <;>
    simp [pipelineTrace, createCommit, gitCommit, pullEvents, pushEvents]

/-- Witness for C7 (amended) at a concrete underlying commit result. -/
theorem dryRun_frame_witness :
    pipelineTrace true ⟨"c0ffee", 2⟩ =
      (pipelineTrace false ⟨"c0ffee", 2⟩).filter
        (fun e => !(e == GitEv.commitObject || e == GitEv.netPush ||
                    e == GitEv.netPull)) ∧
    (createCommit true ⟨"c0ffee", 2⟩).1 = ⟨"dry-run", 0⟩ ∧
    GitEv.writeMarkerFile ∈ pipelineTrace true ⟨"c0ffee", 2⟩ :=
  ⟨(dryRun_frame ⟨"c0ffee", 2⟩).1, (dryRun_frame ⟨"c0ffee", 2⟩).2.1,
   (dryRun_frame ⟨"c0ffee", 2⟩).2.2.2.2.2.1⟩

/-! ### Scheduler (`src/src/config.js` scheduler section, lines 171-312)

The scheduler state and `executeTask`.  The three awaited steps
(`gitService.pull()`, `commitService.createTodayContributions()`,
`gitService.push()`) are external calls whose outcomes are oracle
parameters; a surfaced error is an `.error` value.  The `finally` block
clearing `isRunning` is modelled by the returned state always having
`isRunning := false` on the executing path. -/

structure SchedStats where
  totalRuns : Nat
  successfulRuns : Nat
  failedRuns : Nat
deriving DecidableEq, Repr

structure SchedState where
  isRunning : Bool
  lastRun : Option Nat
  stats : SchedStats
deriving DecidableEq, Repr

/-- The `Scheduler` constructor state (`src/src/config.js` lines 172-182). -/
def initialSchedState : SchedState :=
  { isRunning := false, lastRun := none, stats := ⟨0, 0, 0⟩ }

inductive TaskEv where
  | pull
  | createToday
  | push
deriving DecidableEq, Repr

/-- The `try` block of `executeTask`: which steps run (in order) and the
first surfaced error, if any. -/
def taskSteps (pullR : Except String Unit) (todayR : Except String Nat)
    (pushR : Except String Unit) : List TaskEv × Option String :=
  match pullR with
  | .error e => ([.pull], some e)
  | .ok _ =>
    match todayR with
    | .error e => ([.pull, .createToday], some e)
    | .ok _ =>
      match pushR with
      | .error e => ([.pull, .createToday, .push], some e)
      | .ok _ => ([.pull, .createToday, .push], none)

/-- `Scheduler.executeTask` (`src/src/config.js` lines 187-223): skip when
already running; otherwise set the flag, record `lastRun`, bump
`totalRuns`, run pull → createTodayContributions → push, bump the
success/failure counter depending on whether an error surfaced (caught,
never re-thrown), and clear the flag in `finally`. -/
def executeTask (s : SchedState) (now : Nat) (pullR : Except String Unit)
    (todayR : Except String Nat) (pushR : Except String Unit) :
    SchedState × List TaskEv :=
  if s.isRunning then (s, [])
  else
    ({ isRunning := false
       lastRun := some now
       stats :=
         match (taskSteps pullR todayR pushR).2 with
         | some _ =>
           { totalRuns := s.stats.totalRuns + 1
             successfulRuns := s.stats.successfulRuns
             failedRuns := s.stats.failedRuns + 1 }
         | none =>
           { totalRuns := s.stats.totalRuns + 1
             successfulRuns := s.stats.successfulRuns + 1
             failedRuns := s.stats.failedRuns } },
     (taskSteps pullR todayR pushR).1)

/-- `Scheduler.runNow` (`src/src/config.js` lines 305-308): logs and
delegates to `executeTask`. -/
def runNow (s : SchedState) (now : Nat) (pullR : Except String Unit)
    (todayR : Except String Nat) (pushR : Except String Unit) :
    SchedState × List TaskEv :=
  executeTask s now pullR todayR pushR

/-- Claim C1: while `isRunning` is true, any further trigger of
`executeTask` — from the cron tick or the manual `runNow` path — is a
no-op: the state (including `stats.totalRuns`, the other counters and
`lastRun`) is unchanged and no VCS call is made (empty event trace); the
dropped trigger is not queued (the model keeps no queue, and the immediate
return leaves nothing pending). -/
theorem executeTask_skip_when_running (s : SchedState) (now : Nat)
    (pullR : Except String Unit) (todayR : Except String Nat)
    (pushR : Except String Unit) (h : s.isRunning = true) :
    executeTask s now pullR todayR pushR = (s, []) ∧
    runNow s now pullR todayR pushR = (s, []) := by
  constructor <;> simp [executeTask, runNow, h]

/-- Witness for C1: a concrete mid-execution state is left untouched by a
second trigger. -/
theorem executeTask_skip_when_running_witness :
    executeTask ⟨true, some 3, ⟨4, 2, 2⟩⟩ 9 (.ok ()) (.ok 5) (.ok ()) =
      (⟨true, some 3, ⟨4, 2, 2⟩⟩, []) ∧
    runNow ⟨true, some 3, ⟨4, 2, 2⟩⟩ 9 (.ok ()) (.ok 5) (.ok ()) =
      (⟨true, some 3, ⟨4, 2, 2⟩⟩, []) :=
  executeTask_skip_when_running ⟨true, some 3, ⟨4, 2, 2⟩⟩ 9
    (.ok ()) (.ok 5) (.ok ()) rfl

/-- Executable ok-test for `Except`. -/
def exOk : Except ε β → Bool
  | .ok _ => true
  | .error _ => false

/-- Claim C3: when `executeTask` actually runs (`isRunning` was false) it
performs pull, then the runToday commit creation, then push, in that order
(a failing step ends the sequence); if any step surfaces an error,
`failedRuns` is incremented and the error is not propagated (`executeTask`
returns a state normally in every case — the model is a total function, so
the scheduler stays armed); otherwise `successfulRuns` is incremented; and
in every case the `isRunning` flag is false when the call completes. -/
theorem executeTask_run_behavior (s : SchedState) (now : Nat)
    (pullR : Except String Unit) (todayR : Except String Nat)
    (pushR : Except String Unit) (h : s.isRunning = false) :
    (executeTask s now pullR todayR pushR).2 =
      [TaskEv.pull] ++
        (if exOk pullR then
          [TaskEv.createToday] ++ (if exOk todayR then [TaskEv.push] else [])
         else []) ∧
    ((taskSteps pullR todayR pushR).2 = none →
      (executeTask s now pullR todayR pushR).1.stats.successfulRuns =
          s.stats.successfulRuns + 1 ∧
      (executeTask s now pullR todayR pushR).1.stats.failedRuns =
          s.stats.failedRuns) ∧
    (∀ e, (taskSteps pullR todayR pushR).2 = some e →
      (executeTask s now pullR todayR pushR).1.stats.failedRuns =
          s.stats.failedRuns + 1 ∧
      (executeTask s now pullR todayR pushR).1.stats.successfulRuns =
          s.stats.successfulRuns) ∧
    (executeTask s now pullR todayR pushR).1.isRunning = false ∧
    (executeTask s now pullR todayR pushR).1.stats.totalRuns =
      s.stats.totalRuns + 1 := by
  cases pullR with
  | error e => refine ⟨?_, ?_, ?_, ?_, ?_⟩ <;> simp [executeTask, taskSteps, exOk, h]
  | ok _ =>
    cases todayR with
    | error e => refine ⟨?_, ?_, ?_, ?_, ?_⟩ <;> simp [executeTask, taskSteps, exOk, h]
    | ok _ =>
      cases pushR with
      | error e => refine ⟨?_, ?_, ?_, ?_, ?_⟩ <;> simp [executeTask, taskSteps, exOk, h]
      | ok _ => refine ⟨?_, ?_, ?_, ?_, ?_⟩ <;> simp [executeTask, taskSteps, exOk, h]

/-- Witness for C3: a run whose push step surfaces an error records a
failed run, keeps the error contained, and clears the executing flag. -/
theorem executeTask_run_behavior_witness :
    (executeTask ⟨false, none, ⟨0, 0, 0⟩⟩ 7 (.ok ()) (.ok 2)
        (.error "boom")).2 =
      [TaskEv.pull] ++
        ([TaskEv.createToday] ++ [TaskEv.push]) ∧
    (executeTask ⟨false, none, ⟨0, 0, 0⟩⟩ 7 (.ok ()) (.ok 2)
        (.error "boom")).1.stats.failedRuns = 0 + 1 ∧
    (executeTask ⟨false, none, ⟨0, 0, 0⟩⟩ 7 (.ok ()) (.ok 2)
        (.error "boom")).1.isRunning = false := by
  have h := executeTask_run_behavior ⟨false, none, ⟨0, 0, 0⟩⟩ 7 (.ok ())
    (.ok 2) (.error "boom") rfl
  exact ⟨h.1, (h.2.2.1 "boom" rfl).1, h.2.2.2.1⟩

/-- The run-statistics invariant: `totalRuns = successfulRuns + failedRuns`. -/
def statsInv (st : SchedStats) : Prop :=
  st.totalRuns = st.successfulRuns + st.failedRuns

/-- Claim C10: the scheduler starts with all-zero statistics; `executeTask`
preserves `totalRuns = successfulRuns + failedRuns` across every call (so
the invariant holds whenever the scheduler is not mid-execution); and every
completed run (`isRunning` was false) increments `totalRuns` by exactly one
together with exactly one of `successfulRuns`/`failedRuns`, all three
counters being monotonically non-decreasing, with the flag false after. -/
theorem scheduler_stats_invariant :
    initialSchedState.stats = ⟨0, 0, 0⟩ ∧
    (∀ (s : SchedState) (now : Nat) (pullR : Except String Unit)
        (todayR : Except String Nat) (pushR : Except String Unit),
      statsInv s.stats →
        statsInv (executeTask s now pullR todayR pushR).1.stats) ∧
    (∀ (s : SchedState) (now : Nat) (pullR : Except String Unit)
        (todayR : Except String Nat) (pushR : Except String Unit),
      s.isRunning = false →
        (executeTask s now pullR todayR pushR).1.stats.totalRuns =
          s.stats.totalRuns + 1 ∧
        (((executeTask s now pullR todayR pushR).1.stats.successfulRuns =
            s.stats.successfulRuns + 1 ∧
          (executeTask s now pullR todayR pushR).1.stats.failedRuns =
            s.stats.failedRuns) ∨
         ((executeTask s now pullR todayR pushR).1.stats.failedRuns =
            s.stats.failedRuns + 1 ∧
          (executeTask s now pullR todayR pushR).1.stats.successfulRuns =
            s.stats.successfulRuns)) ∧
        s.stats.totalRuns ≤
          (executeTask s now pullR todayR pushR).1.stats.totalRuns ∧
        s.stats.successfulRuns ≤
          (executeTask s now pullR todayR pushR).1.stats.successfulRuns ∧
        s.stats.failedRuns ≤
          (executeTask s now pullR todayR pushR).1.stats.failedRuns ∧
        (executeTask s now pullR todayR pushR).1.isRunning = false) := by
  refine ⟨rfl, ?_, ?_⟩
  · intro s now pullR todayR pushR hinv
    by_cases h : s.isRunning
    · simpa [executeTask, h] using hinv
    · rcases htb : (taskSteps pullR todayR pushR).2 with _ | e <;>
        · simp [executeTask, h, htb, statsInv] at hinv ⊢
          omega
  · intro s now pullR todayR pushR h
    rcases htb : (taskSteps pullR todayR pushR).2 with _ | e <;>
      simp [executeTask, h, htb, Nat.le_succ]

/-- Witness for C10: preservation and the per-run increments at a concrete
reachable-looking state. -/
theorem scheduler_stats_invariant_witness :
    statsInv (executeTask ⟨false, some 1, ⟨5, 3, 2⟩⟩ 9 (.ok ()) (.ok 1)
        (.ok ())).1.stats ∧
    (executeTask ⟨false, some 1, ⟨5, 3, 2⟩⟩ 9 (.ok ()) (.ok 1)
        (.ok ())).1.stats.totalRuns = 5 + 1 :=
  ⟨(scheduler_stats_invariant.2.1 ⟨false, some 1, ⟨5, 3, 2⟩⟩ 9 (.ok ())
      (.ok 1) (.ok ()) rfl),
   (scheduler_stats_invariant.2.2 ⟨false, some 1, ⟨5, 3, 2⟩⟩ 9 (.ok ())
      (.ok 1) (.ok ()) rfl).1⟩

/-! ### Backfill (`src/src/commit-service.js` `backfillContributions`,
lines 123-194)

Calendar days are embedded as day numbers since 1970-01-01 (a Thursday);
`current.add(1, "day")` is successor, `moment.day()` is
`(d + 4) % 7` with 0 = Sunday … 6 = Saturday, exactly moment's numbering.
The two random draws (`commitCount` per day, and per-commit success) are
oracle parameters: `rc day` is the raw random draw for the day's commit
count (reduced mod `maxCommits - minCommits + 1` as in the source) and
`fp day i` tells whether the `i`-th `createCommit` of that day fails. -/

def dayOfWeek (d : Nat) : Nat := (d + 4) % 7

def isWeekend (d : Nat) : Bool := dayOfWeek d == 0 || dayOfWeek d == 6

structure BackfillStats where
  totalDays : Nat
  totalCommits : Nat
  skippedDays : Nat
  errors : Nat
deriving DecidableEq, Repr

/-- `Math.floor(Math.random() * (maxCommits - minCommits + 1)) + minCommits`
with `r` the scaled random draw. -/
def dayCommitCount (minC maxC r : Nat) : Nat := minC + r % (maxC - minC + 1)

/-- The inner per-day commit loop: returns (successes, errors) over commit
indices `0 … n-1`; a failed `createCommit` is caught and counted. -/
def commitLoop (fp : Nat → Nat → Bool) (day : Nat) : Nat → Nat × Nat
  | 0 => (0, 0)
  | n + 1 =>
    let p := commitLoop fp day n
    if fp day n then (p.1, p.2 + 1) else (p.1 + 1, p.2)

/-- The day loop of `backfillContributions`: `cur` is the current day
number, the second argument the number of days left
(`while current.isSameOrBefore(end)`).  Also returns the list of days of
the successfully created commits (one entry per commit). -/
def backfillAux (skipW : Bool) (minC maxC : Nat) (rc : Nat → Nat)
    (fp : Nat → Nat → Bool) : Nat → Nat → BackfillStats × List Nat
  | _, 0 => (⟨0, 0, 0, 0⟩, [])
  | cur, n + 1 =>
    let rest := backfillAux skipW minC maxC rc fp (cur + 1) n
    if skipW && isWeekend cur then
      (⟨rest.1.totalDays, rest.1.totalCommits, rest.1.skippedDays + 1,
        rest.1.errors⟩, rest.2)
    else
      (⟨rest.1.totalDays + 1,
        rest.1.totalCommits + (commitLoop fp cur
          (dayCommitCount minC maxC (rc cur))).1,
        rest.1.skippedDays,
        rest.1.errors + (commitLoop fp cur
          (dayCommitCount minC maxC (rc cur))).2⟩,
       List.replicate (commitLoop fp cur
          (dayCommitCount minC maxC (rc cur))).1 cur ++ rest.2)

/-- `CommitService.backfillContributions` over the inclusive day range
`[start, endD]`. -/
def backfillContributions (skipW : Bool) (minC maxC : Nat) (rc : Nat → Nat)
    (fp : Nat → Nat → Bool) (start endD : Nat) :
    BackfillStats × List Nat :=
  backfillAux skipW minC maxC rc fp start (endD + 1 - start)

/-- Number of weekend days in the inclusive range `[start, endD]`. -/
def weekendCount (start endD : Nat) : Nat :=
  ((List.range (endD + 1 - start)).map (start + ·)).countP isWeekend

theorem range_map_add_succ (cur n : Nat) :
    (List.range (n + 1)).map (cur + ·) =
      cur :: (List.range n).map ((cur + 1) + ·) := by
  rw [List.range_succ_eq_map, List.map_cons, List.map_map]
  refine congrArg₂ _ (by rw [Nat.add_zero]) ?_
  exact List.map_congr_left fun i _ => by
    simp only [Function.comp_apply, Nat.succ_eq_add_one]
    omega

theorem backfillAux_weekday_events (minC maxC : Nat) (rc : Nat → Nat)
    (fp : Nat → Nat → Bool) :
    ∀ n cur d, d ∈ (backfillAux true minC maxC rc fp cur n).2 →
      isWeekend d = false := by
  intro n
  induction n with
  | zero => intro cur d hd; simp [backfillAux] at hd
  | succ m ih =>
    intro cur d hd
    rw [backfillAux] at hd
    cases hw : isWeekend cur
    · simp only [hw, Bool.and_false, Bool.false_eq_true, if_false,
        List.mem_append, List.mem_replicate] at hd
      rcases hd with ⟨_, rfl⟩ | hd
      · exact hw
      · exact ih (cur + 1) d hd
    · simp only [hw, Bool.and_true, Bool.and_self, if_true] at hd
      exact ih (cur + 1) d hd

theorem backfillAux_skipped_weekends (minC maxC : Nat) (rc : Nat → Nat)
    (fp : Nat → Nat → Bool) :
    ∀ n cur,
      (backfillAux true minC maxC rc fp cur n).1.skippedDays =
        ((List.range n).map (cur + ·)).countP isWeekend ∧
      (backfillAux true minC maxC rc fp cur n).1.totalDays +
        (backfillAux true minC maxC rc fp cur n).1.skippedDays = n := by
  intro n
  induction n with
  | zero => intro cur; simp [backfillAux]
  | succ m ih =>
    intro cur
    have h1 := (ih (cur + 1)).1
    have h2 := (ih (cur + 1)).2
    have hcount : ((List.range (m + 1)).map (cur + ·)).countP isWeekend =
        ((List.range m).map ((cur + 1) + ·)).countP isWeekend +
          (if isWeekend cur then 1 else 0) := by
      rw [range_map_add_succ, List.countP_cons]
    rw [backfillAux]
    cases hw : isWeekend cur <;>
      · simp only [hw, if_true, if_false, Bool.and_false, Bool.and_true,
          Bool.false_eq_true, Bool.and_self] at hcount ⊢
        refine ⟨by rw [hcount, h1] <;> omega, by omega⟩

theorem commitLoop_no_failures (fp : Nat → Nat → Bool) (day : Nat)
    (hfp : ∀ i, fp day i = false) :
    ∀ c, commitLoop fp day c = (c, 0) := by
  intro c
  induction c with
  | zero => rfl
  | succ m ih => simp [commitLoop, ih, hfp m]

theorem backfillAux_fixed_count (skipW : Bool) (minC : Nat) (rc : Nat → Nat)
    (fp : Nat → Nat → Bool) (hfp : ∀ d i, fp d i = false) :
    ∀ n cur,
      (backfillAux skipW minC minC rc fp cur n).1.totalCommits =
        minC * (backfillAux skipW minC minC rc fp cur n).1.totalDays := by
  intro n
  induction n with
  | zero => intro cur; simp [backfillAux]
  | succ m ih =>
    intro cur
    have hc : dayCommitCount minC minC (rc cur) = minC := by
      simp [dayCommitCount, Nat.mod_one]
    rw [backfillAux]
    cases hw : (skipW && isWeekend cur)
    · simp only [Bool.false_eq_true, if_false]
      rw [hc, commitLoop_no_failures fp cur (hfp cur) minC, ih (cur + 1)]
      ring
    · simp only [if_true]
      exact ih (cur + 1)

theorem backfillAux_no_skip (minC maxC : Nat) (rc : Nat → Nat)
    (fp : Nat → Nat → Bool) :
    ∀ n cur,
      (backfillAux false minC maxC rc fp cur n).1.skippedDays = 0 ∧
      (backfillAux false minC maxC rc fp cur n).1.totalDays = n := by
  intro n
  induction n with
  | zero => intro cur; simp [backfillAux]
  | succ m ih =>
    intro cur
    rw [backfillAux]
    simp only [Bool.false_and, Bool.false_eq_true, if_false]
    exact ⟨(ih (cur + 1)).1, by rw [(ih (cur + 1)).2]⟩

/-- Claim C6: over the inclusive day range `[start, endD]`, with
`skipWeekends = true` the backfill creates no commit on a Saturday or
Sunday and `skippedDays` is exactly the number of weekend days in the
range, with `totalDays + skippedDays` equal to the inclusive day count;
and with `minCommits = maxCommits = m` and no per-commit failures,
`totalCommits = m × totalDays` (for either value of `skipWeekends`, in
particular covering the example m = 2, 3-day weekday range →
totalDays = 3, totalCommits = 6, skippedDays = 0). -/
theorem backfill_spec (skipW : Bool) (minC maxC : Nat) (rc : Nat → Nat)
    (fp : Nat → Nat → Bool) (start endD : Nat) (_hse : start ≤ endD) :
    (skipW = true →
      (∀ d ∈ (backfillContributions skipW minC maxC rc fp start endD).2,
        isWeekend d = false) ∧
      (backfillContributions skipW minC maxC rc fp start endD).1.skippedDays
        = weekendCount start endD ∧
      (backfillContributions skipW minC maxC rc fp start endD).1.totalDays +
        (backfillContributions skipW minC maxC rc fp start endD).1.skippedDays
        = endD + 1 - start) ∧
    (minC = maxC → (∀ d i, fp d i = false) →
      (backfillContributions skipW minC maxC rc fp start endD).1.totalCommits
        = minC *
          (backfillContributions skipW minC maxC rc fp start endD).1.totalDays) ∧
    (skipW = false →
      (backfillContributions skipW minC maxC rc fp start endD).1.skippedDays
        = 0 ∧
      (backfillContributions skipW minC maxC rc fp start endD).1.totalDays
        = endD + 1 - start) := by
  refine ⟨fun hsw => ?_, fun hmm hfp => ?_, fun hsw => ?_⟩
  · subst hsw
    exact ⟨fun d hd => backfillAux_weekday_events minC maxC rc fp _ start d hd,
      (backfillAux_skipped_weekends minC maxC rc fp _ start).1,
      (backfillAux_skipped_weekends minC maxC rc fp _ start).2⟩
  · subst hmm
    exact backfillAux_fixed_count skipW minC rc fp hfp _ start
  · subst hsw
    exact ⟨(backfillAux_no_skip minC maxC rc fp _ start).1,
      (backfillAux_no_skip minC maxC rc fp _ start).2⟩

/-- Witness for C6: the spec's worked example — `minCommits = maxCommits = 2`
over the 3 weekdays Mon 1970-01-05 … Wed 1970-01-07 (day numbers 4-6), no
weekend skip, no failures: totalDays = 3, totalCommits = 2 × 3,
skippedDays = 0. -/
theorem backfill_spec_witness :
    (backfillContributions false 2 2 (fun _ => 0) (fun _ _ => false) 4
        6).1.totalCommits =
      2 * (backfillContributions false 2 2 (fun _ => 0) (fun _ _ => false) 4
        6).1.totalDays ∧
    (backfillContributions false 2 2 (fun _ => 0) (fun _ _ => false) 4
        6).1.skippedDays = 0 ∧
    (backfillContributions false 2 2 (fun _ => 0) (fun _ _ => false) 4
        6).1.totalDays = 6 + 1 - 4 :=
  ⟨(backfill_spec false 2 2 (fun _ => 0) (fun _ _ => false) 4 6
      (by decide)).2.1 rfl (fun _ _ => rfl),
   ((backfill_spec false 2 2 (fun _ => 0) (fun _ _ => false) 4 6
      (by decide)).2.2 rfl).1,
   ((backfill_spec false 2 2 (fun _ => 0) (fun _ _ => false) 4 6
      (by decide)).2.2 rfl).2⟩

/-! ### Pattern drawing (`src/unnamed/part_002`)

`drawPattern` iterates `week` over `[0, pattern[0].length)` and `day` over
`[0, 7)` and, for each cell with `pattern[day][week] === 1`, creates
`commitsPerCell` commits dated `generateDate(startWeek + week, day)`.
`expandPattern` is the sequence of commit timestamps this emits, with the
intensity generalized to a parameter.  The JavaScript indexing
`pattern[day] && pattern[day][week] === 1` (out-of-range reads are
`undefined`, hence not `1`) is embedded with optional indexing. -/

/-- `CONFIG.commitsPerCell` in `src/unnamed/part_002`. -/
def commitsPerCell : Nat := 5

/-- number of columns: `pattern[0].length` (the source throws on an empty
pattern; all theorems assume the 7-row shape). -/
def patternWeeks (grid : List (List Nat)) : Nat := (grid.headD []).length

/-- `pattern[day] && pattern[day][week] === 1`. -/
def cellOn (grid : List (List Nat)) (day week : Nat) : Bool :=
  match grid[day]? with
  | some row =>
    match row[week]? with
    | some v => v == 1
    | none => false
  | none => false

/-- The timestamp sequence emitted by `drawPattern`'s nested loops
(`src/unnamed/part_002` lines 135-149), intensity as a parameter. -/
def expandPattern (now : Moment) (grid : List (List Nat))
    (startWeek intensity : Nat) : List Moment :=
  (List.range (patternWeeks grid)).flatMap fun week =>
    (List.range 7).flatMap fun day =>
      if cellOn grid day week then
        List.replicate intensity (generateDate now (startWeek + week) day)
      else []

/-- The on-cells of the grid as (week, day) pairs in column-major order:
week ascending, then day-of-week ascending within each week — the traversal
order of `drawPattern`'s loops. -/
def onCells (grid : List (List Nat)) : List (Nat × Nat) :=
  (List.range (patternWeeks grid)).flatMap fun week =>
    ((List.range 7).filter fun day => cellOn grid day week).map
      fun day => (week, day)

theorem flatMap_ite_eq_filter_map {β γ : Type} (l : List Nat)
    (p : Nat → Bool) (g : Nat → β) (h : β → List γ) :
    (l.flatMap fun x => if p x then h (g x) else []) =
      ((l.filter p).map g).flatMap h := by
  induction l with
  | nil => rfl
  | cons a t ih => cases hp : p a <;> simp [List.filter_cons, hp, ih]

theorem flatMap_congr_left {β : Type} (l : List Nat) (f g : Nat → List β)
    (h : ∀ a ∈ l, f a = g a) : l.flatMap f = l.flatMap g := by
  induction l with
  | nil => rfl
  | cons a t ih =>
    simp only [List.flatMap_cons]
    rw [h a (List.mem_cons_self a t),
      ih fun x hx => h x (List.mem_cons_of_mem a hx)]

theorem expandPattern_eq_onCells (now : Moment) (grid : List (List Nat))
    (sw n : Nat) :
    expandPattern now grid sw n =
      (onCells grid).flatMap
        (fun c => List.replicate n (generateDate now (sw + c.1) c.2)) := by
  unfold expandPattern onCells
  rw [List.flatMap_assoc]
  exact flatMap_congr_left _ _ _ fun week _ =>
    flatMap_ite_eq_filter_map (List.range 7) (fun day => cellOn grid day week)
      (fun day => (week, day))
      (fun c => List.replicate n (generateDate now (sw + c.1) c.2))

theorem countP_eq_sum_indicator (p : Nat → Bool) (l : List Nat) :
    l.countP p = (l.map fun x => if p x then 1 else 0).sum := by
  induction l with
  | nil => rfl
  | cons a t ih =>
    simp only [List.countP_cons, List.map_cons, List.sum_cons, ih]
    omega

theorem sum_countP_swap (q : Nat → Nat → Bool) (k : Nat) :
    ∀ m, ((List.range m).map fun w => (List.range k).countP fun d => q d w).sum
      = ((List.range k).map fun d => (List.range m).countP fun w => q d w).sum := by
  intro m
  induction m with
  | zero => simp
  | succ m ih =>
    rw [List.range_succ m, List.map_append, List.sum_append]
    have hRHS : ∀ d, (List.range m ++ [m]).countP (fun w => q d w) =
        (List.range m).countP (fun w => q d w) + (if q d m then 1 else 0) := by
      intro d
      rw [List.countP_append]
      simp [List.countP_cons]
    calc ((List.range m).map fun w => (List.range k).countP fun d => q d w).sum
          + ([m].map fun w => (List.range k).countP fun d => q d w).sum
        = ((List.range k).map fun d => (List.range m).countP fun w => q d w).sum
          + (List.range k).countP (fun d => q d m) := by
          rw [ih]
          simp [countP_eq_sum_indicator]
      _ = ((List.range k).map fun d =>
            (List.range m).countP (fun w => q d w) + (if q d m then 1 else 0)).sum := by
          rw [List.sum_map_add, ← countP_eq_sum_indicator]
      _ = ((List.range k).map fun d =>
            (List.range m ++ [m]).countP fun w => q d w).sum := by
          exact congrArg _ (List.map_congr_left fun d _ => (hRHS d).symm)

theorem countP_row_indices (p : Nat → Bool) :
    ∀ row : List Nat, row.countP p =
      (List.range row.length).countP fun i =>
        match row[i]? with
        | some v => p v
        | none => false := by
  intro row
  induction row with
  | nil => rfl
  | cons a t ih =>
    simp only [List.length_cons, List.range_succ_eq_map, List.countP_cons,
      List.countP_map]
    have h1 : ((List.range t.length).countP
        ((fun i => match (a :: t)[i]? with
          | some v => p v
          | none => false) ∘ Nat.succ)) =
        (List.range t.length).countP fun i =>
          match t[i]? with
          | some v => p v
          | none => false := by
      refine List.countP_congr fun i _ => ?_
      simp [Function.comp]
    rw [h1, ← ih]
    simp

theorem flatten_countP_rows (W : Nat) :
    ∀ grid : List (List Nat), (∀ row ∈ grid, row.length = W) →
      grid.flatten.countP (fun v => v == 1) =
        ((List.range grid.length).map fun d =>
          (List.range W).countP fun w => cellOn grid d w).sum := by
  intro grid
  induction grid with
  | nil => intro _; rfl
  | cons row t ih =>
    intro hW
    have hrow : row.length = W := hW row (List.mem_cons_self row t)
    simp only [List.flatten_cons, List.countP_append, List.length_cons,
      List.range_succ_eq_map, List.map_cons, List.sum_cons, List.map_map]
    have hhead : row.countP (fun v => v == 1) =
        (List.range W).countP fun w => cellOn (row :: t) 0 w := by
      rw [countP_row_indices (fun v => v == 1) row, hrow]
      refine List.countP_congr fun w _ => ?_
      simp only [cellOn, List.getElem?_cons_zero]
    have htail : ((List.range t.length).map
        ((fun d => (List.range W).countP fun w => cellOn (row :: t) d w) ∘
          Nat.succ)).sum =
        ((List.range t.length).map fun d =>
          (List.range W).countP fun w => cellOn t d w).sum := by
      refine congrArg _ (List.map_congr_left fun d _ => ?_)
      simp only [Function.comp_apply]
      refine List.countP_congr fun w _ => ?_
      simp only [cellOn, List.getElem?_cons_succ]
    rw [hhead, htail, ih fun r hr => hW r (List.mem_cons_of_mem row hr)]

theorem length_flatMap_replicate {β γ : Type} (n : Nat) (f : β → γ)
    (l : List β) :
    (l.flatMap fun c => List.replicate n (f c)).length = n * l.length := by
  induction l with
  | nil => simp
  | cons a t ih =>
    simp only [List.flatMap_cons, List.length_append, List.length_replicate,
      List.length_cons, ih, Nat.mul_succ]
    omega

/-- Claim C4: on a 7-row grid whose rows all have width `W`, with `k` the
number of on-cells (entries equal to 1) and any intensity `n ≥ 1`, the
expansion `expandPattern` emitted by `drawPattern` is exactly the
concatenation, over the on-cells in column-major order (week ascending,
then day-of-week ascending), of runs of `n` copies of
`generateDate (startWeekOffset + week) day` — in particular it has exactly
`k × n` timestamps. -/
theorem expandPattern_runs (now : Moment) (grid : List (List Nat))
    (sw n W : Nat) (h7 : grid.length = 7)
    (hW : ∀ row ∈ grid, row.length = W) (_hn : 1 ≤ n) :
    expandPattern now grid sw n =
      (onCells grid).flatMap
        (fun c => List.replicate n (generateDate now (sw + c.1) c.2)) ∧
    (onCells grid).length = grid.flatten.countP (fun v => v == 1) ∧
    (expandPattern now grid sw n).length =
      grid.flatten.countP (fun v => v == 1) * n := by
  have hWeq : patternWeeks grid = W := by
    cases grid with
    | nil => simp at h7
    | cons r t => exact hW r (List.mem_cons_self r t)
  have hcells : (onCells grid).length =
      grid.flatten.countP (fun v => v == 1) := by
    have h1 : (onCells grid).length =
        ((List.range (patternWeeks grid)).map fun week =>
          (List.range 7).countP fun day => cellOn grid day week).sum := by
      unfold onCells
      rw [List.length_flatMap]
      refine congrArg List.sum (List.map_congr_left fun week _ => ?_)
      simp only [Function.comp_apply]
      rw [List.length_map, ← List.countP_eq_length_filter]
    rw [h1, hWeq, sum_countP_swap (fun d w => cellOn grid d w) 7 W,
      flatten_countP_rows W grid hW, h7]
  refine ⟨expandPattern_eq_onCells now grid sw n, hcells, ?_⟩
  rw [expandPattern_eq_onCells now grid sw n,
    length_flatMap_replicate n (fun c : Nat × Nat => generateDate now (sw + c.1) c.2),
    hcells, Nat.mul_comm]

/-- Witness for C4: the spec's worked example — a 7×1 grid whose only
on-cell is `grid[0][0]`, intensity 3, start week 5: the expansion is three
copies of `generateDate 5 0`. -/
theorem expandPattern_runs_witness :
    expandPattern ⟨⟨2026, 10, 11⟩, 0⟩ [[1], [0], [0], [0], [0], [0], [0]] 5 3 =
      (onCells [[1], [0], [0], [0], [0], [0], [0]]).flatMap
        (fun c => List.replicate 3
          (generateDate ⟨⟨2026, 10, 11⟩, 0⟩ (5 + c.1) c.2)) ∧
    (onCells [[1], [0], [0], [0], [0], [0], [0]]).length =
      ([[1], [0], [0], [0], [0], [0], [0]] :
        List (List Nat)).flatten.countP (fun v => v == 1) ∧
    (expandPattern ⟨⟨2026, 10, 11⟩, 0⟩
        [[1], [0], [0], [0], [0], [0], [0]] 5 3).length =
      ([[1], [0], [0], [0], [0], [0], [0]] :
        List (List Nat)).flatten.countP (fun v => v == 1) * 3 :=
  expandPattern_runs ⟨⟨2026, 10, 11⟩, 0⟩ [[1], [0], [0], [0], [0], [0], [0]]
    5 3 1 (by decide) (by decide) (by decide)

/-! ### The pattern table and `drawPattern`'s unknown-pattern path
(`src/unnamed/part_002` lines 19-74 and 116-152) -/

def PATTERNS : List (String × List (List Nat)) :=
  [("heart",
    [[0, 1, 1, 0, 0, 1, 1, 0],
     [1, 1, 1, 1, 1, 1, 1, 1],
     [1, 1, 1, 1, 1, 1, 1, 1],
     [1, 1, 1, 1, 1, 1, 1, 1],
     [0, 1, 1, 1, 1, 1, 1, 0],
     [0, 0, 1, 1, 1, 1, 0, 0],
     [0, 0, 0, 1, 1, 0, 0, 0]]),
   ("hi",
    [[1, 0, 1, 0, 1, 1, 1],
     [1, 0, 1, 0, 0, 1, 0],
     [1, 1, 1, 0, 0, 1, 0],
     [1, 0, 1, 0, 0, 1, 0],
     [1, 0, 1, 0, 0, 1, 0],
     [1, 0, 1, 0, 0, 1, 0],
     [1, 0, 1, 0, 1, 1, 1]]),
   ("smiley",
    [[0, 0, 1, 1, 1, 1, 0, 0],
     [0, 1, 0, 0, 0, 0, 1, 0],
     [1, 0, 1, 0, 0, 1, 0, 1],
     [1, 0, 0, 0, 0, 0, 0, 1],
     [1, 0, 1, 0, 0, 1, 0, 1],
     [0, 1, 0, 1, 1, 0, 1, 0],
     [0, 0, 1, 1, 1, 1, 0, 0]]),
   ("checkerboard",
    [[1, 0, 1, 0, 1, 0, 1, 0],
     [0, 1, 0, 1, 0, 1, 0, 1],
     [1, 0, 1, 0, 1, 0, 1, 0],
     [0, 1, 0, 1, 0, 1, 0, 1],
     [1, 0, 1, 0, 1, 0, 1, 0],
     [0, 1, 0, 1, 0, 1, 0, 1],
     [1, 0, 1, 0, 1, 0, 1, 0]]),
   ("wave",
    [[0, 0, 0, 1, 0, 0, 0, 1],
     [0, 0, 1, 0, 0, 0, 1, 0],
     [0, 1, 0, 0, 0, 1, 0, 0],
     [1, 0, 0, 0, 1, 0, 0, 0],
     [0, 1, 0, 0, 0, 1, 0, 0],
     [0, 0, 1, 0, 0, 0, 1, 0],
     [0, 0, 0, 1, 0, 0, 0, 1]])]

/-- `PATTERNS[patternName]`. -/
def lookupPattern (name : String) : Option (List (List Nat)) :=
  (PATTERNS.find? fun p => p.1 == name).map Prod.snd

/-- Observable outcome of `drawPattern`: the commit timestamps created and,
when the pattern is unknown, the logged error content (the requested key
and the list of valid keys printed by the source). -/
structure DrawResult where
  commits : List Moment
  notFound : Option (String × List String)
deriving DecidableEq, Repr

/-- `drawPattern(patternName, startWeek)` (`src/unnamed/part_002` lines
116-152).  The unknown-pattern branch logs the requested key and the
available keys and RETURNS NORMALLY (`return;`) — it throws nothing, so the
embedding never produces the `.error` constructor; a commit failure inside
the loops (out of scope for the claims settled here) would be the only
rejection path. -/
def drawPattern (now : Moment) (patternName : String) (startWeek : Nat) :
    Except String DrawResult :=
  match lookupPattern patternName with
  | none =>
    .ok { commits := []
          notFound := some (patternName, PATTERNS.map Prod.fst) }
  | some pat =>
    .ok { commits := expandPattern now pat startWeek commitsPerCell
          notFound := none }

/-- Counterexample to claim C8 as stated: requesting the unknown pattern
name "rocket" does NOT fail the pattern-run operation — `drawPattern`
returns successfully (the `.ok` constructor, not an error), merely logging
the unknown key and the valid keys, and `main` then proceeds to push. -/
theorem drawPattern_unknown_not_error :
    drawPattern ⟨⟨2026, 10, 11⟩, 0⟩ "rocket" 10 =
      .ok { commits := []
            notFound := some ("rocket",
              ["heart", "hi", "smiley", "checkerboard", "wave"]) } := rfl

/-- Claim C8 (amended): for every requested pattern name not present in the
pattern table, `drawPattern` creates no commits and does not fall back to
any default pattern; it logs an error naming the requested key and listing
the valid keys, but it does not raise an error — it returns normally and
the enclosing run continues. -/
theorem drawPattern_unknown_no_commits (now : Moment) (name : String)
    (sw : Nat) (h : lookupPattern name = none) :
    drawPattern now name sw =
      .ok { commits := []
            notFound := some (name, PATTERNS.map Prod.fst) } := by
  simp [drawPattern, h]

/-- Witness for C8 (amended) at the concrete unknown name "rocket". -/
theorem drawPattern_unknown_no_commits_witness :
    drawPattern ⟨⟨2026, 1, 2⟩, 30⟩ "rocket" 0 =
      .ok { commits := []
            notFound := some ("rocket", PATTERNS.map Prod.fst) } :=
  drawPattern_unknown_no_commits ⟨⟨2026, 1, 2⟩, 30⟩ "rocket" 0 (by decide)

end GitCommit
